import Mathlib

/-!
# NaviSync: verification of the matching and reconciliation engine

A shallow embedding of the play-history reconciliation core of the NaviSync
repository (`main.py`, `src/utils.py`, `src/matcher.py`, `src/cache.py`,
`src/db.py`), together with theorems settling the frozen claims about it.

Python strings are modelled as Lean `String` (lists of characters); Python's
`str.strip` / `str.lower` are modelled by explicit character-list operations
(ASCII-level, which is the range exercised here).  Python integers are `Int`
(play counts) or `Nat` (lengths, scores, timestamps).  Python dicts keyed by
normalized keys are association lists preserving insertion order, which is
exactly the iteration order of a Python dict.  Interactive prompts and the
external `thefuzz` ratio / `unicodedata` library functions are
parameters of the embedded functions.
-/

namespace NaviSync

/-! ## String primitives (Python `str.strip`, `str.lower`) -/

/-- Python `\s` / `str.strip` whitespace test (ASCII range). -/
def isWs (c : Char) : Bool := c.isWhitespace

/-- Drop leading whitespace. -/
def dropLead (l : List Char) : List Char := l.dropWhile isWs

/-- Drop trailing whitespace. -/
def dropTrail (l : List Char) : List Char := (l.reverse.dropWhile isWs).reverse

/-- Python `str.strip()` on a character list. -/
def trimList (l : List Char) : List Char := dropTrail (dropLead l)

/-- Python `str.strip()`. -/
def trimStr (s : String) : String := String.mk (trimList s.data)

/-- Python `str.lower()` (ASCII-level). -/
def lowerStr (s : String) : String := String.mk (s.data.map Char.toLower)

/-- `utils.normalize`: `s.strip().lower() if s else ""`. -/
def normalize (s : String) : String := if s = "" then "" else lowerStr (trimStr s)

/-! ## The collaborator separator pattern of `utils.first_artist`

The regex `\s+(\bfeat\.?|\bft\.?|\bfeaturing\b|&|\+|;|,|/|\-|\bvs\.?|\band\b|
\bwith\b|\bmit\b|\bmet\b|\bx\b|\bremix\b|\bversus\b)\s+` (IGNORECASE).
Since every alternative is preceded and followed by mandatory `\s+`, the word
boundaries are automatic; a match starting at position `i` exists iff the
character at `i` is whitespace and, after one or more whitespace characters,
one of the separator tokens occurs followed by another whitespace character.
`re.split(...)[0]` is the text before the leftmost such match. -/

/-- The separator tokens of the pattern, lowercased; `feat\.?` contributes
both `"feat."` and `"feat"`, and so on. -/
def sepTokens : List (List Char) :=
  [['f','e','a','t','.'], ['f','e','a','t'], ['f','t','.'], ['f','t'],
   ['f','e','a','t','u','r','i','n','g'], ['&'], ['+'], [';'], [','], ['/'],
   ['-'], ['v','s','.'], ['v','s'], ['a','n','d'], ['w','i','t','h'],
   ['m','i','t'], ['m','e','t'], ['x'], ['r','e','m','i','x'],
   ['v','e','r','s','u','s']]

/-- Does one of the separator tokens occur (case-insensitively) at the head of
`l`, immediately followed by a whitespace character? -/
def tokenThenWs (l : List Char) : Bool :=
  sepTokens.any fun t =>
    ((l.take t.length).map Char.toLower == t) &&
      (match l.drop t.length with
       | c :: _ => isWs c
       | [] => false)

/-- After at least one whitespace character has been consumed, does a
separator token (followed by whitespace) start here or after more
whitespace? -/
def wsThenTok : List Char → Bool
  | [] => false
  | c :: rest => tokenThenWs (c :: rest) || (isWs c && wsThenTok rest)

/-- Does a match of the separator pattern start at the head of `l`? -/
def sepMatchAt : List Char → Bool
  | [] => false
  | c :: rest => isWs c && wsThenTok rest

/-- The prefix of `l` before the leftmost match of the separator pattern
(`re.split(sep_pattern, l)[0]`); all of `l` if there is no match. -/
def splitFirst : List Char → List Char
  | [] => []
  | c :: rest => if sepMatchAt (c :: rest) then [] else c :: splitFirst rest

/-- Does the separator pattern match anywhere in `l`? -/
def hasSepMatch : List Char → Bool
  | [] => false
  | c :: rest => sepMatchAt (c :: rest) || hasSepMatch rest

/-- An artist string contains a collaboration separator: the separator
pattern of `first_artist` matches somewhere in the stripped string. -/
def containsSep (artist : String) : Bool := hasSepMatch (trimList artist.data)

/-! ## Configuration (`src/config.py`) -/

/-- The ambient configuration read from the environment in `config.py`:
`SCROBBLED_FIRSTARTISTONLY` (default `True`) and `FIRST_ARTIST_WHITELIST`
(default `[]`). -/
structure Config where
  firstArtistOnly : Bool
  whitelist : List String

/-- `utils.first_artist`. -/
def first_artist (cfg : Config) (artist : String) : String :=
  if artist = "" then ""
  else
    let clean := trimStr artist
    if !cfg.firstArtistOnly then clean
    else
      let lower := lowerStr clean
      match cfg.whitelist.find? fun w =>
          trimStr w ≠ "" && lower == lowerStr (trimStr w) with
      | some w => trimStr w
      | none => String.mk (trimList (splitFirst clean.data))

/-- Normalized keys: 2-tuples `(artist, title)` or 3-tuples
`(artist, title, album)` are both modelled as lists of strings, keeping the
arity visible exactly as in the Python tuples. -/
abbrev Key := List String

/-- `utils.make_key_lastfm`: source-side key; never collaborator-split. -/
def make_key_lastfm (artist title : String) (album : Option String)
    (album_aware : Bool) : Key :=
  if album_aware then [normalize artist, normalize title, normalize (album.getD "")]
  else [normalize artist, normalize title]

/-- `utils.make_key_navidrome`: target-side key; applies `first_artist`. -/
def make_key_navidrome (cfg : Config) (artist title : String)
    (album : Option String) (album_aware : Bool) : Key :=
  if album_aware then
    [normalize (first_artist cfg artist), normalize title, normalize (album.getD "")]
  else [normalize (first_artist cfg artist), normalize title]

/-! ## Aggregation (`utils.aggregate_scrobbles`) -/

/-- A scrobble record fetched from the history source: dict with `artist`,
`track`, optional `album`, `timestamp`, `loved`. -/
structure Scrobble where
  artist : String
  track : String
  album : Option String
  timestamp : Nat
  loved : Bool
deriving DecidableEq, Repr

/-- One value of the aggregated dict: timestamps, loved flag, and the
original display strings of the first-seen event. -/
structure AggInfo where
  timestamps : List Nat
  loved : Bool
  artist_orig : String
  track_orig : String
  album_orig : String
deriving DecidableEq, Repr

/-- The aggregated map: a Python dict in insertion order, as an association
list whose keys are pairwise distinct by construction. -/
abbrev AggMap := List (Key × AggInfo)

/-- Dict lookup. -/
def lookupAgg (m : AggMap) (k : Key) : Option AggInfo :=
  match m.find? (fun e => e.1 == k) with
  | some e => some e.2
  | none => none

/-- The key built for a scrobble in `aggregate_scrobbles`:
`make_key_lastfm(s['artist'], s['track'], s.get('album', ''), album_aware)`. -/
def scrobbleKey (album_aware : Bool) (s : Scrobble) : Key :=
  make_key_lastfm s.artist s.track (some (s.album.getD "")) album_aware

/-- `aggregated.setdefault(key, {...})` followed by the timestamp append and
the loved-flag raise, for one scrobble. -/
def upsertScrobble (m : AggMap) (k : Key) (s : Scrobble) : AggMap :=
  match m with
  | [] => [(k, ⟨[s.timestamp], s.loved, s.artist, s.track, s.album.getD ""⟩)]
  | (k', i) :: rest =>
    if k' = k then
      (k', { i with timestamps := i.timestamps ++ [s.timestamp],
                    loved := i.loved || s.loved }) :: rest
    else (k', i) :: upsertScrobble rest k s

/-- The loop of `utils.aggregate_scrobbles`, with explicit accumulator. -/
def aggregateGo (album_aware : Bool) (m : AggMap) : List Scrobble → AggMap
  | [] => m
  | s :: rest => aggregateGo album_aware (upsertScrobble m (scrobbleKey album_aware s) s) rest

/-- `utils.aggregate_scrobbles`. -/
def aggregate_scrobbles (scrobbles : List Scrobble) (album_aware : Bool) : AggMap :=
  aggregateGo album_aware [] scrobbles

/-! ## Conflict resolver (`main.resolve_playcount`) -/

/-- `main.resolve_playcount`; returns `(new_count, conflict, changed)`.
The `mode == "ask"` branch reads one line from the user; that response is the
`choice` parameter (the code applies `.strip().lower()` to it). -/
def resolve_playcount (nav lastfm : Int) (mode : String) (choice : String) :
    Int × Bool × Bool :=
  if mode = "increment" then
    (nav + lastfm, nav ≠ lastfm, true)
  else if lastfm > nav then
    (lastfm, true, true)
  else if nav > lastfm then
    if mode = "ask" then
      let c := lowerStr (trimStr choice)
      let new_count := if c = "" ∨ c = "n" then nav else lastfm
      (new_count, true, new_count ≠ nav)
    else if mode = "navidrome" ∨ mode = "higher" then (nav, true, false)
    else if mode = "lastfm" then (lastfm, true, true)
    else (nav, false, false)
  else (nav, false, false)

/-! ## Duplicate handling (`main.calculate_album_divide`) -/

/-- The fields of a Navidrome duplicate-version dict used by the divide:
`id` and `album` (nullable). -/
structure DupTrack where
  id : String
  album : Option String
deriving DecidableEq, Repr

/-- The equal-division loop (floor + remainder to the first items in input
order), producing the distribution dict as a list of `(id, count)` pairs in
insertion order. -/
def equalDivideGo (per rem : Nat) : List DupTrack → Nat → List (String × Nat)
  | [], _ => []
  | d :: ds, idx => (d.id, per + if idx < rem then 1 else 0) :: equalDivideGo per rem ds (idx + 1)

/-- `main.calculate_album_divide`: distribution of `len(timestamps)` scrobbles
over the duplicate versions. -/
def calculate_album_divide (duplicates : List DupTrack) (info : AggInfo) :
    List (String × Nat) :=
  let total := info.timestamps.length
  let lastfm_album := trimStr info.album_orig
  if lastfm_album = "" then
    equalDivideGo (total / duplicates.length) (total % duplicates.length) duplicates 0
  else
    match duplicates.find? (fun d =>
        lowerStr (trimStr (d.album.getD "")) == lowerStr lastfm_album) with
    | some m => duplicates.map fun d => (d.id, if d.id = m.id then total else 0)
    | none =>
      equalDivideGo (total / duplicates.length) (total % duplicates.length) duplicates 0

/-- `main.process_album_divide`: the interactive variant; its computed
distribution is the same as `calculate_album_divide`, the difference being
console output only. -/
def process_album_divide (duplicates : List DupTrack) (info : AggInfo) :
    List (String × Nat) :=
  let total := info.timestamps.length
  let lastfm_album := trimStr info.album_orig
  if lastfm_album = "" then
    equalDivideGo (total / duplicates.length) (total % duplicates.length) duplicates 0
  else
    match duplicates.find? (fun d =>
        lowerStr (trimStr (d.album.getD "")) == lowerStr lastfm_album) with
    | some m => duplicates.map fun d => (d.id, if d.id = m.id then total else 0)
    | none =>
      equalDivideGo (total / duplicates.length) (total % duplicates.length) duplicates 0

/-! ## Write-back (`db.update_annotation`) -/

/-- One row of Navidrome's `annotation` table for a `(user, track)` pair, as
read and written by `db.update_annotation`. -/
structure Annotation where
  play_count : Int
  play_date : Option Nat
  starred : Bool
deriving DecidableEq, Repr

/-- `db.update_annotation`: updates the row when it exists (touching
`starred` only if `loved`), inserts it otherwise.  `play_date` strings are
modelled by their timestamps; Python's truthiness test
`if new_last_played and ...` is kept (a `0` timestamp is falsy). -/
def update_annotation (row : Option Annotation) (new_count : Int)
    (new_last_played : Option Nat) (loved : Bool) : Annotation :=
  let existing := row.bind (fun r => r.play_date)
  let truthy : Bool := match new_last_played with
    | some t => t != 0
    | none => false
  let newer : Bool := match existing with
    | none => true
    | some e => decide (new_last_played.getD 0 > e)
  let pd := if truthy && newer then new_last_played else existing
  match row with
  | some r => if loved then ⟨new_count, pd, true⟩ else ⟨new_count, pd, r.starred⟩
  | none => ⟨new_count, pd, loved⟩

/-! ## Fuzzy matcher (`src/matcher.py`) -/

/-- Python `str.replace(pat, rep)`: left-to-right, non-overlapping. -/
def replaceList (pat rep : List Char) : List Char → List Char
  | [] => []
  | c :: rest =>
    if pat ≠ [] ∧ pat.isPrefixOf (c :: rest) then
      rep ++ replaceList pat rep (rest.drop (pat.length - 1))
    else c :: replaceList pat rep rest
termination_by l => l.length
decreasing_by
  · simp only [List.length_drop, List.length_cons]; omega
  · simp only [List.length_cons]; omega

/-- Python `s.replace(pat, rep)`. -/
def pyReplace (s pat rep : String) : String :=
  String.mk (replaceList pat.data rep.data s.data)

/-- `matcher.normalize_for_fuzzy_match`.  The Unicode NFD decomposition plus
combining-mark removal is performed by the external `unicodedata` library and
is a parameter `nfdStrip` (it is the identity on ASCII text). -/
def normalize_for_fuzzy_match (nfdStrip : String → String) (s : String) : String :=
  if s = "" then ""
  else trimStr (pyReplace (pyReplace (lowerStr (nfdStrip s)) " & " " and ") "  " " ")

/-! ### IEEE binary64 arithmetic for the combined score

`combined_score = (track_score * 0.7) + (artist_score * 0.3)` is computed by
Python in IEEE-754 binary64.  All values arising here are nonnegative dyadic
rationals `num / 2^exp`, so the doubles are modelled exactly: `0.7` and `0.3`
are the binary64 values nearest those decimals, and each multiplication and
addition rounds its exact result to 53 significant bits, ties to even.  At
exact ties this differs from real arithmetic: `92*0.7 + 92*0.3` evaluates to
`91.99999999999999 < 92`. -/

/-- A nonnegative dyadic rational `num / 2^exp`; the exact value of a
nonnegative binary64 double. -/
structure Dyadic where
  num : Nat
  exp : Nat
deriving DecidableEq, Repr

/-- Numeric comparison of dyadic values: `x.num / 2^x.exp ≤ y.num / 2^y.exp`
cross-multiplied. -/
def dyadicLe (x y : Dyadic) : Prop := x.num * 2 ^ y.exp ≤ y.num * 2 ^ x.exp

instance (x y : Dyadic) : Decidable (dyadicLe x y) :=
  inferInstanceAs (Decidable (_ ≤ _))

/-- How many halvings bring `n` strictly below `2^53` (the number of excess
significand bits); `fuel` is an upper bound on the count, instantiated with
`n` itself. -/
def excess53 (fuel n : Nat) : Nat :=
  match fuel with
  | 0 => 0
  | fuel + 1 => if n < 2 ^ 53 then 0 else excess53 fuel (n / 2) + 1

/-- Round a nonnegative dyadic value to 53 significant bits, ties to even:
IEEE-754 binary64 round-to-nearest on the values arising here (no overflow
or subnormals in range 0–100). -/
def round53 (d : Dyadic) : Dyadic :=
  let k := excess53 d.num d.num
  if k = 0 then d
  else
    let q := d.num / 2 ^ k
    let r := d.num % 2 ^ k
    let half := 2 ^ (k - 1)
    let q' := if half < r then q + 1
      else if r < half then q
      else if q % 2 = 0 then q else q + 1
    if k ≤ d.exp then ⟨q', d.exp - k⟩ else ⟨q' * 2 ^ (k - d.exp), 0⟩

/-- The binary64 double nearest `0.7`: `6305039478318694 / 2^53`. -/
def c07 : Dyadic := ⟨6305039478318694, 53⟩

/-- The binary64 double nearest `0.3`: `5404319552844595 / 2^54`. -/
def c03 : Dyadic := ⟨5404319552844595, 54⟩

/-- Binary64 product of an exactly-representable small integer with a
double: exact product, then one rounding. -/
def dyMulNat (n : Nat) (d : Dyadic) : Dyadic := round53 ⟨n * d.num, d.exp⟩

/-- Binary64 sum of two doubles: exact sum, then one rounding. -/
def dyAdd (x y : Dyadic) : Dyadic :=
  let e := max x.exp y.exp
  round53 ⟨x.num * 2 ^ (e - x.exp) + y.num * 2 ^ (e - y.exp), e⟩

/-- The exact value of Python's `(track_score * 0.7) + (artist_score * 0.3)`
in binary64. -/
def combined_score_float (track_score artist_score : Nat) : Dyadic :=
  dyAdd (dyMulNat track_score c07) (dyMulNat artist_score c03)

/-- One entry of the candidate list built by
`find_fuzzy_matches_for_navidrome_track`.  The thefuzz similarity returns
integers 0–100; `combined_score` holds the exact value of the binary64
double Python computes for `track*0.7 + artist*0.3`. -/
structure FuzzyMatch where
  lastfm_artist : String
  lastfm_track : String
  scrobble_count : Nat
  loved : Bool
  artist_score : Nat
  track_score : Nat
  combined_score : Dyadic
  scrobble_info : AggInfo
deriving DecidableEq, Repr

/-- The candidate record built inside the loop of
`find_fuzzy_matches_for_navidrome_track` for one aggregated entry:
per-field thefuzz similarity scores and the binary64 combined score
`track_score * 0.7 + artist_score * 0.3`. -/
def fuzzyCandidate (ratioFn : String → String → Nat) (nfdStrip : String → String)
    (na nt : String) (si : AggInfo) : FuzzyMatch :=
  let artist_score := ratioFn na (normalize_for_fuzzy_match nfdStrip si.artist_orig)
  let track_score := ratioFn nt (normalize_for_fuzzy_match nfdStrip si.track_orig)
  ⟨si.artist_orig, si.track_orig, si.timestamps.length, si.loved,
   artist_score, track_score, combined_score_float track_score artist_score, si⟩

/-- The inclusion gates of `find_fuzzy_matches_for_navidrome_track`:
`combined_score >= threshold and artist_score >= 70`, where the first
comparison is Python's exact float-to-int comparison of the binary64
combined score against the integer threshold. -/
def passesGates (threshold : Nat) (c : FuzzyMatch) : Bool :=
  decide (threshold * 2 ^ c.combined_score.exp ≤ c.combined_score.num)
    && decide (70 ≤ c.artist_score)

/-- `matcher.find_fuzzy_matches_for_navidrome_track`.  The string similarity
of the thefuzz library is external, a parameter `ratioFn`.  Python's stable
descending sort by `combined_score` is a stable insertion sort on the exact
values of the doubles (stable sorting is unique as a function). -/
def find_fuzzy_matches_for_navidrome_track (ratioFn : String → String → Nat)
    (nfdStrip : String → String) (navidrome_artist navidrome_track : String)
    (aggregated_scrobbles : AggMap) (threshold : Nat) : List FuzzyMatch :=
  let na := normalize_for_fuzzy_match nfdStrip navidrome_artist
  let nt := normalize_for_fuzzy_match nfdStrip navidrome_track
  let ms := aggregated_scrobbles.filterMap fun e =>
    let c := fuzzyCandidate ratioFn nfdStrip na nt e.2
    if passesGates threshold c then some c else none
  List.insertionSort (fun x y => dyadicLe y.combined_score x.combined_score) ms

/-! ## Decision cache (`src/cache.py`) -/

/-- Generic `INSERT OR REPLACE` on an association list. -/
def upsertAssoc {α β : Type} [DecidableEq α] (l : List (α × β)) (k : α) (v : β) :
    List (α × β) :=
  if (l.find? fun e => e.1 = k).isSome then
    l.map fun e => if e.1 = k then (k, v) else e
  else l ++ [(k, v)]

/-- The decision-cache tables used by the match resolver:
`fuzzy_match_mappings` (primary key: navidrome track id) and
`skipped_tracks` (primary key: navidrome track id, value: the checked
Last.fm `(artist, track)` identities). -/
structure CacheState where
  fuzzy : List (String × (String × String))
  skipped : List (String × List (String × String))
deriving DecidableEq, Repr

/-- `ScrobbleCache.get_fuzzy_match_for_navidrome_track`. -/
def get_fuzzy_match_for_navidrome_track (cs : CacheState) (track_id : String) :
    Option (String × String) :=
  (cs.fuzzy.find? fun e => e.1 = track_id).map (·.2)

/-- `ScrobbleCache.get_skipped_track_info` (the `checked_lastfm_tracks`
list). -/
def get_skipped_track_info (cs : CacheState) (track_id : String) :
    Option (List (String × String)) :=
  (cs.skipped.find? fun e => e.1 = track_id).map (·.2)

/-- A Navidrome track dict as consumed by the matcher: `id`, `artist`,
`title`, nullable `album`. -/
structure NavTrack where
  id : String
  artist : String
  title : String
  album : Option String
deriving DecidableEq, Repr

/-- `ScrobbleCache.save_fuzzy_match`: removes any skip record for the track
and upserts the fuzzy mapping. -/
def save_fuzzy_match (cs : CacheState) (nav : NavTrack)
    (lastfm_artist lastfm_track : String) : CacheState :=
  { fuzzy := upsertAssoc cs.fuzzy nav.id (lastfm_artist, lastfm_track),
    skipped := cs.skipped.filter fun e => e.1 ≠ nav.id }

/-- `ScrobbleCache.save_skipped_track`. -/
def save_skipped_track (cs : CacheState) (nav : NavTrack)
    (checked : List (String × String)) : CacheState :=
  { cs with skipped := upsertAssoc cs.skipped nav.id checked }

/-! ## Match resolver (`matcher.get_lastfm_match_for_navidrome_track`) -/

/-- First component of a key tuple (`key[0]`). -/
def keyFst : Key → String
  | [] => ""
  | a :: _ => a

/-- Second component of a key tuple (`key[1]`). -/
def keySnd : Key → String
  | _ :: t :: _ => t
  | _ => ""

/-- The observable outcome of one call to
`get_lastfm_match_for_navidrome_track`: the returned scrobble info, whether
the user was prompted, and the decision cache afterwards. -/
structure MatchOutcome where
  result : Option AggInfo
  prompted : Bool
  cache : CacheState
deriving DecidableEq, Repr

/-- `matcher.get_lastfm_match_for_navidrome_track`.  The interactive
selection loop `prompt_user_for_lastfm_match` is the parameter `choose`
(`none` models answer `0`, i.e. skip). -/
def get_lastfm_match_for_navidrome_track (ratioFn : String → String → Nat)
    (nfdStrip : String → String) (choose : List FuzzyMatch → Option FuzzyMatch)
    (cfg : Config) (nav : NavTrack) (agg : AggMap) (cache : CacheState)
    (fuzzy_threshold : Nat) (enable_fuzzy album_aware : Bool)
    (album_specific_keys : Option (List (String × String))) : MatchOutcome :=
  let cachedHit : Option AggInfo :=
    match get_fuzzy_match_for_navidrome_track cache nav.id with
    | some (a, t) => lookupAgg agg (make_key_lastfm a t none false)
    | none => none
  match cachedHit with
  | some si => ⟨some si, false, cache⟩
  | none =>
    let exact_key := make_key_navidrome cfg nav.artist nav.title nav.album album_aware
    match lookupAgg agg exact_key with
    | some si => ⟨some si, false, cache⟩
    | none =>
      if album_aware then
        let nav_key_agnostic := make_key_navidrome cfg nav.artist nav.title none false
        let has_album_specific : Bool :=
          match album_specific_keys with
          | some ks => ks.contains (keyFst nav_key_agnostic, keySnd nav_key_agnostic)
          | none => false
        let empty_album_key := make_key_navidrome cfg nav.artist nav.title (some "") true
        let nav_album_clean := trimStr (nav.album.getD "")
        if nav_album_clean = "" ∧ (lookupAgg agg empty_album_key).isSome then
          ⟨lookupAgg agg empty_album_key, false, cache⟩
        else if ¬has_album_specific ∧ (lookupAgg agg empty_album_key).isSome then
          ⟨lookupAgg agg empty_album_key, false, cache⟩
        else if ¬has_album_specific ∧ (lookupAgg agg nav_key_agnostic).isSome then
          ⟨lookupAgg agg nav_key_agnostic, false, cache⟩
        else ⟨none, false, cache⟩
      else if ¬enable_fuzzy then ⟨none, false, cache⟩
      else
        let fuzzy_matches := find_fuzzy_matches_for_navidrome_track ratioFn nfdStrip
          nav.artist nav.title agg fuzzy_threshold
        if fuzzy_matches = [] then ⟨none, false, cache⟩
        else
          let staySkipped : Bool :=
            match get_skipped_track_info cache nav.id with
            | none => false
            | some prev =>
              let current := fuzzy_matches.map fun m => (m.lastfm_artist, m.lastfm_track)
              ¬current.any fun k => ¬prev.contains k
          if staySkipped then ⟨none, false, cache⟩
          else
            match choose fuzzy_matches with
            | some sel =>
              ⟨some sel.scrobble_info, true,
               save_fuzzy_match cache nav sel.lastfm_artist sel.lastfm_track⟩
            | none =>
              ⟨none, true,
               save_skipped_track cache nav
                 (fuzzy_matches.map fun m => (m.lastfm_artist, m.lastfm_track))⟩

/-! ## Duplicate-selection replay (`main.compute_differences`, phase 2) -/

/-- Modelled from the spec: the DuplicateSelection store.
`main.compute_differences` calls `cache.get_duplicate_selection` and
`cache.save_duplicate_selection`, but `ScrobbleCache` in `cache.py` does not
define them; per the spec, DuplicateSelection records map a source identity
key to the list of target item ids chosen to receive the count. -/
structure DupStore where
  entries : List ((String × String) × List String)
deriving DecidableEq, Repr

/-- Modelled from the spec: lookup of a DuplicateSelection record by source
identity (the missing `ScrobbleCache.get_duplicate_selection`). -/
def get_duplicate_selection (store : DupStore) (artist track : String) :
    Option (List String) :=
  (store.entries.find? fun e => e.1 = (artist, track)).map (·.2)

/-- Modelled from the spec: persisting a DuplicateSelection record keyed by
source identity (the missing `ScrobbleCache.save_duplicate_selection`). -/
def save_duplicate_selection (store : DupStore) (artist track : String)
    (ids : List String) : DupStore :=
  ⟨upsertAssoc store.entries (artist, track) ids⟩

/-- The three shapes returned by `prompt_user_for_duplicate_selection`:
a list of selected ids (one version or all), the album-aware-divide marker
(choice `B`), or skip (choice `0`). -/
inductive DupPromptResult where
  | select (ids : List String)
  | divide
  | skip
deriving DecidableEq, Repr

/-- The observable outcome of the duplicate-selection step for one group. -/
structure DupOutcome where
  prompted : Bool
  selected : Option (List String)
  divideResult : Option (List (String × Nat))
  store : DupStore
deriving DecidableEq, Repr

/-- The `should_prompt` branch of `main.compute_differences` (phase 2):
cached-selection replay, re-prompt on an invalid cache, and persistence of a
fresh interactive selection. -/
def handle_duplicate_prompt (store : DupStore) (lastfm_artist lastfm_track : String)
    (duplicates : List DupTrack) (info : AggInfo) (prompt : DupPromptResult) :
    DupOutcome :=
  let promptPath : DupOutcome :=
    match prompt with
    | .divide =>
      let advr := process_album_divide duplicates info
      let selected := advr.map (·.1)
      ⟨true, some selected, some advr,
       save_duplicate_selection store lastfm_artist lastfm_track selected⟩
    | .select ids =>
      if ids ≠ [] then
        ⟨true, some ids, none, save_duplicate_selection store lastfm_artist lastfm_track ids⟩
      else ⟨true, none, none, store⟩
    | .skip => ⟨true, none, none, store⟩
  match get_duplicate_selection store lastfm_artist lastfm_track with
  | some cached =>
    if cached = [] then promptPath
    else
      let valid_ids := duplicates.map (·.id)
      let selected := cached.filter fun tid => valid_ids.contains tid
      if selected ≠ [] then
        let advr := if selected.length = duplicates.length ∧ 1 < duplicates.length then
            some (calculate_album_divide duplicates info)
          else none
        ⟨false, some selected, advr, store⟩
      else promptPath
  | none => promptPath

/-! ## Theorems: conflict resolver (C1) -/

/-- C1: for every pair of counts with `source_count > target_count`,
`resolve_playcount` under every policy except `increment` returns
`new_count = source_count` with the conflict flag true and the changed flag
true. -/
theorem C1_conflict_one_directional (nav lastfm : Int) (mode choice : String)
    (hmode : mode ≠ "increment") (h : lastfm > nav) :
    resolve_playcount nav lastfm mode choice = (lastfm, true, true) := by
  unfold resolve_playcount
  rw [if_neg hmode, if_pos h]

/-- C1 witness: a concrete instance (`target = 1`, `source = 2`, policy
`navidrome`). -/
theorem C1_conflict_one_directional_witness :
    resolve_playcount 1 2 "navidrome" "" = (2, true, true) :=
  C1_conflict_one_directional 1 2 "navidrome" "" (by decide) (by decide)

/-! ## Theorems: album-aware divide conservation (C2) -/

/-- The sum of the equal-division loop, for an arbitrary starting index. -/
theorem equalDivideGo_sum (per rem : Nat) (ds : List DupTrack) (idx : Nat) :
    ((equalDivideGo per rem ds idx).map Prod.snd).sum
      = ds.length * per + (min rem (idx + ds.length) - min rem idx) := by
  induction ds generalizing idx with
  | nil => simp [equalDivideGo]
  | cons d ds ih =>
    simp only [equalDivideGo, List.map_cons, List.sum_cons, ih (idx + 1),
      List.length_cons, Nat.succ_mul]
    by_cases h : idx < rem
    · rw [if_pos h]
      omega
    · rw [if_neg h]
      omega

/-- In a list with pairwise-distinct ids none of which is `i`, the
exact-match distribution assigns zero everywhere. -/
theorem exactDistrib_sum_zero (total : Nat) (i : String) (ds : List DupTrack)
    (h : ∀ d ∈ ds, d.id ≠ i) :
    ((ds.map fun d => (d.id, if d.id = i then total else 0)).map Prod.snd).sum = 0 := by
  induction ds with
  | nil => simp
  | cons d ds ih =>
    simp only [List.map_cons, List.sum_cons]
    rw [if_neg (h d (List.mem_cons_self d ds))]
    rw [ih fun d' hd' => h d' (List.mem_cons_of_mem d hd')]

/-- In a list with pairwise-distinct ids containing `m`, the exact-match
distribution sums to the full count. -/
theorem exactDistrib_sum (total : Nat) (m : DupTrack) (ds : List DupTrack)
    (hnd : (ds.map DupTrack.id).Nodup) (hm : m ∈ ds) :
    ((ds.map fun d => (d.id, if d.id = m.id then total else 0)).map Prod.snd).sum
      = total := by
  induction ds with
  | nil => cases hm
  | cons d ds ih =>
    simp only [List.map_cons, List.sum_cons]
    rw [List.map_cons, List.nodup_cons] at hnd
    by_cases hid : d.id = m.id
    · rw [if_pos hid]
      have hz : ∀ d' ∈ ds, d'.id ≠ m.id := by
        intro d' hd' hcontra
        exact hnd.1 (hid ▸ hcontra ▸ List.mem_map_of_mem DupTrack.id hd')
      rw [exactDistrib_sum_zero total m.id ds hz]
      omega
    · rw [if_neg hid]
      have hm' : m ∈ ds := by
        cases List.mem_cons.mp hm with
        | inl h => exact absurd (congrArg DupTrack.id h.symm) hid
        | inr h => exact h
      rw [ih hnd.2 hm']
      omega

/-- C2: for every nonempty list of duplicate target items (with the distinct
ids the data model guarantees) and every total scrobble count, the per-item
counts assigned by `calculate_album_divide` sum to exactly the total, in
every branch (exact album match, empty source album, no-match equal
division). -/
theorem C2_divide_conservation (duplicates : List DupTrack) (info : AggInfo)
    (hne : duplicates ≠ []) (hnd : (duplicates.map DupTrack.id).Nodup) :
    ((calculate_album_divide duplicates info).map Prod.snd).sum
      = info.timestamps.length := by
  have hlen : 0 < duplicates.length := List.length_pos.mpr hne
  unfold calculate_album_divide
  dsimp only
  have hdiv : ∀ _ : Unit,
      ((equalDivideGo (info.timestamps.length / duplicates.length)
          (info.timestamps.length % duplicates.length) duplicates 0).map Prod.snd).sum
        = info.timestamps.length := by
    intro _
    rw [equalDivideGo_sum]
    have hmod : info.timestamps.length % duplicates.length < duplicates.length :=
      Nat.mod_lt _ hlen
    have := Nat.div_add_mod info.timestamps.length duplicates.length
    omega
  split
  · exact hdiv ()
  · split
    · next m hfind =>
      exact exactDistrib_sum info.timestamps.length m duplicates hnd
        (List.mem_of_find?_eq_some hfind)
    · exact hdiv ()

/-- C2 witness: the spec's concrete scenario — two versions, total 7, empty
source album, yielding counts 4 and 3. -/
theorem C2_divide_conservation_witness :
    ((calculate_album_divide [⟨"1", some "Deluxe"⟩, ⟨"2", some "Standard"⟩]
        ⟨[10, 20, 30, 40, 50, 60, 70], false, "Artist A", "Song X", ""⟩).map
      Prod.snd).sum = 7 :=
  C2_divide_conservation _ _ (by decide) (by decide)

/-! ## Characterization of the aggregation fold (towards C7, C8) -/

/-- The timestamps recorded for key `k` (empty when the key is absent). -/
def lookupTs (m : AggMap) (k : Key) : List Nat :=
  ((lookupAgg m k).map AggInfo.timestamps).getD []

/-- The loved flag recorded for key `k` (false when the key is absent). -/
def lookupLoved (m : AggMap) (k : Key) : Bool :=
  ((lookupAgg m k).map AggInfo.loved).getD false

theorem lookupTs_upsert_self (m : AggMap) (k : Key) (s : Scrobble) :
    lookupTs (upsertScrobble m k s) k = lookupTs m k ++ [s.timestamp] := by
  induction m with
  | nil => simp [upsertScrobble, lookupTs, lookupAgg]
  | cons e rest ih =>
    obtain ⟨k', i⟩ := e
    by_cases h : k' = k
    · subst h
      simp [upsertScrobble, lookupTs, lookupAgg]
    · simp only [upsertScrobble, if_neg h]
      have hbeq : (k' == k) = false := beq_eq_false_iff_ne.mpr h
      simpa [lookupTs, lookupAgg, List.find?, hbeq] using ih

theorem lookupLoved_upsert_self (m : AggMap) (k : Key) (s : Scrobble) :
    lookupLoved (upsertScrobble m k s) k = (lookupLoved m k || s.loved) := by
  induction m with
  | nil => simp [upsertScrobble, lookupLoved, lookupAgg]
  | cons e rest ih =>
    obtain ⟨k', i⟩ := e
    by_cases h : k' = k
    · subst h
      simp [upsertScrobble, lookupLoved, lookupAgg]
    · simp only [upsertScrobble, if_neg h]
      have hbeq : (k' == k) = false := beq_eq_false_iff_ne.mpr h
      simpa [lookupLoved, lookupAgg, List.find?, hbeq] using ih

theorem lookupAgg_upsert_ne (m : AggMap) (k : Key) (s : Scrobble) (k' : Key)
    (h : k' ≠ k) : lookupAgg (upsertScrobble m k s) k' = lookupAgg m k' := by
  induction m with
  | nil =>
    have hbeq : (k == k') = false := beq_eq_false_iff_ne.mpr (Ne.symm h)
    simp [upsertScrobble, lookupAgg, List.find?, hbeq]
  | cons e rest ih =>
    obtain ⟨k'', i⟩ := e
    by_cases hk : k'' = k
    · subst hk
      have hbeq : (k'' == k') = false := beq_eq_false_iff_ne.mpr fun hc => h (hc ▸ rfl)
      simp [upsertScrobble, lookupAgg, List.find?, hbeq]
    · simp only [upsertScrobble, if_neg hk]
      by_cases hk' : k'' = k'
      · subst hk'
        simp [lookupAgg, List.find?]
      · have hbeq : (k'' == k') = false := beq_eq_false_iff_ne.mpr hk'
        simpa [lookupAgg, List.find?, hbeq] using ih

theorem lookupAgg_upsert_self_isSome (m : AggMap) (k : Key) (s : Scrobble) :
    (lookupAgg (upsertScrobble m k s) k).isSome = true := by
  induction m with
  | nil => simp [upsertScrobble, lookupAgg]
  | cons e rest ih =>
    obtain ⟨k', i⟩ := e
    by_cases h : k' = k
    · subst h
      simp [upsertScrobble, lookupAgg]
    · simp only [upsertScrobble, if_neg h]
      have hbeq : (k' == k) = false := beq_eq_false_iff_ne.mpr h
      simpa [lookupAgg, List.find?, hbeq] using ih

theorem lookupTs_aggregateGo (aa : Bool) (l : List Scrobble) (m : AggMap) (k : Key) :
    lookupTs (aggregateGo aa m l) k
      = lookupTs m k
        ++ (l.filter fun s => scrobbleKey aa s == k).map Scrobble.timestamp := by
  induction l generalizing m with
  | nil => simp [aggregateGo]
  | cons s rest ih =>
    simp only [aggregateGo, ih]
    by_cases h : scrobbleKey aa s = k
    · rw [List.filter_cons_of_pos (by simpa using h)]
      rw [h, lookupTs_upsert_self]
      simp
    · rw [List.filter_cons_of_neg (by simpa using h)]
      have : lookupTs (upsertScrobble m (scrobbleKey aa s) s) k = lookupTs m k := by
        unfold lookupTs
        rw [lookupAgg_upsert_ne _ _ _ _ (Ne.symm h)]
      rw [this]

theorem lookupLoved_aggregateGo (aa : Bool) (l : List Scrobble) (m : AggMap) (k : Key) :
    lookupLoved (aggregateGo aa m l) k
      = (lookupLoved m k || (l.filter fun s => scrobbleKey aa s == k).any Scrobble.loved) := by
  induction l generalizing m with
  | nil => simp [aggregateGo]
  | cons s rest ih =>
    simp only [aggregateGo, ih]
    by_cases h : scrobbleKey aa s = k
    · rw [List.filter_cons_of_pos (by simpa using h)]
      rw [h, lookupLoved_upsert_self]
      simp [Bool.or_assoc]
    · rw [List.filter_cons_of_neg (by simpa using h)]
      have : lookupLoved (upsertScrobble m (scrobbleKey aa s) s) k = lookupLoved m k := by
        unfold lookupLoved
        rw [lookupAgg_upsert_ne _ _ _ _ (Ne.symm h)]
      rw [this]

theorem isSome_aggregateGo (aa : Bool) (l : List Scrobble) (m : AggMap) (k : Key) :
    (lookupAgg (aggregateGo aa m l) k).isSome = true
      ↔ ((lookupAgg m k).isSome = true ∨ ∃ s ∈ l, scrobbleKey aa s = k) := by
  induction l generalizing m with
  | nil => simp [aggregateGo]
  | cons s rest ih =>
    simp only [aggregateGo, ih]
    by_cases h : scrobbleKey aa s = k
    · rw [h]
      simp [lookupAgg_upsert_self_isSome, h]
    · rw [lookupAgg_upsert_ne _ _ _ _ (Ne.symm h)]
      constructor
      · rintro (hs | ⟨s', hs', hk⟩)
        · exact Or.inl hs
        · exact Or.inr ⟨s', List.mem_cons_of_mem s hs', hk⟩
      · rintro (hs | ⟨s', hs', hk⟩)
        · exact Or.inl hs
        · rcases List.mem_cons.mp hs' with rfl | hmem
          · exact absurd hk h
          · exact Or.inr ⟨s', hmem, hk⟩

/-- `List.any` is invariant under permutation. -/
theorem perm_any {α : Type} {l₁ l₂ : List α} (h : l₁.Perm l₂) (p : α → Bool) :
    l₁.any p = l₂.any p := by
  rw [Bool.eq_iff_iff]
  simp only [List.any_eq_true]
  constructor
  · rintro ⟨x, hx, hp⟩
    exact ⟨x, h.mem_iff.mp hx, hp⟩
  · rintro ⟨x, hx, hp⟩
    exact ⟨x, h.mem_iff.mpr hx, hp⟩

/-! ## Theorems: aggregation determinism (C7) -/

/-- C7: for every scrobble list and every permutation of it,
`aggregate_scrobbles` produces the same set of keys, per key the same
multiset of timestamps and the same loved flag, and the loved flag equals
the OR of the loved flags of the contributing events. -/
theorem C7_aggregation_determinism (album_aware : Bool) (l₁ l₂ : List Scrobble)
    (hp : l₁.Perm l₂) (k : Key) :
    ((lookupAgg (aggregate_scrobbles l₁ album_aware) k).isSome
        ↔ (lookupAgg (aggregate_scrobbles l₂ album_aware) k).isSome)
      ∧ (lookupTs (aggregate_scrobbles l₁ album_aware) k).Perm
          (lookupTs (aggregate_scrobbles l₂ album_aware) k)
      ∧ lookupLoved (aggregate_scrobbles l₁ album_aware) k
          = lookupLoved (aggregate_scrobbles l₂ album_aware) k
      ∧ lookupLoved (aggregate_scrobbles l₁ album_aware) k
          = (l₁.filter fun s => scrobbleKey album_aware s == k).any Scrobble.loved := by
  unfold aggregate_scrobbles
  refine ⟨?_, ?_, ?_, ?_⟩
  · constructor
    · intro h
      exact (isSome_aggregateGo album_aware l₂ [] k).mpr
        (by
          rcases (isSome_aggregateGo album_aware l₁ [] k).mp h with hs | ⟨s, hs, hk⟩
          · exact Or.inl hs
          · exact Or.inr ⟨s, hp.mem_iff.mp hs, hk⟩)
    · intro h
      exact (isSome_aggregateGo album_aware l₁ [] k).mpr
        (by
          rcases (isSome_aggregateGo album_aware l₂ [] k).mp h with hs | ⟨s, hs, hk⟩
          · exact Or.inl hs
          · exact Or.inr ⟨s, hp.mem_iff.mpr hs, hk⟩)
  · rw [lookupTs_aggregateGo, lookupTs_aggregateGo]
    exact ((hp.filter _).map _).append_left _
  · rw [lookupLoved_aggregateGo, lookupLoved_aggregateGo]
    rw [perm_any (hp.filter _) Scrobble.loved]
  · rw [lookupLoved_aggregateGo]
    simp [lookupLoved, lookupAgg]

/-- C7 witness: two concrete permuted event lists (the spec's example with
the order reversed). -/
theorem C7_aggregation_determinism_witness :
    (lookupLoved
        (aggregate_scrobbles
          [⟨"Artist A", "Song X", none, 100, false⟩, ⟨"Artist A", "Song X", none, 200, true⟩]
          false)
        ["artist a", "song x"])
      = (lookupLoved
          (aggregate_scrobbles
            [⟨"Artist A", "Song X", none, 200, true⟩, ⟨"Artist A", "Song X", none, 100, false⟩]
            false)
          ["artist a", "song x"]) :=
  (C7_aggregation_determinism false _ _ (by decide) _).2.2.1

/-! ## Theorems: loved/starred monotonicity (C8) -/

/-- C8: no operation turns a loved/starred flag from true to false.
Aggregation only raises the loved flag (a key whose flag is true keeps it
through any further events); `update_annotation` sets `starred` when the
source is loved, and an existing row's `starred` survives the update
whatever the source's loved flag is. -/
theorem C8_loved_starred_monotonic :
    (∀ (album_aware : Bool) (m : AggMap) (l : List Scrobble) (k : Key),
        lookupLoved m k = true → lookupLoved (aggregateGo album_aware m l) k = true)
      ∧ (∀ (r : Option Annotation) (c : Int) (lp : Option Nat),
          ( update_annotation r c lp true).starred = true)
      ∧ (∀ (r : Annotation) (c : Int) (lp : Option Nat) (loved : Bool),
          r.starred = true → ( update_annotation (some r) c lp loved).starred = true) := by
  refine ⟨?_, ?_, ?_⟩
  · intro aa m l k h
    rw [lookupLoved_aggregateGo, h, Bool.true_or]
  · intro r c lp
    cases r <;> simp [ update_annotation]
  · intro r c lp loved h
    cases loved <;> simp [ update_annotation, h]

/-- C8 witness: a starred row stays starred through a not-loved update, and
a loved source stars an existing row; a concretely loved key stays loved
after aggregating further events. -/
theorem C8_loved_starred_monotonic_witness :
    ( update_annotation (some ⟨5, some 100, true⟩) 9 (some 200) false).starred = true
      ∧ ( update_annotation (some ⟨5, some 100, false⟩) 9 (some 200) true).starred = true
      ∧ lookupLoved
          (aggregateGo false [(["artist a", "song x"], ⟨[100], true, "Artist A", "Song X", ""⟩)]
            [⟨"Artist A", "Song X", none, 300, false⟩])
          ["artist a", "song x"] = true :=
  ⟨C8_loved_starred_monotonic.2.2 ⟨5, some 100, true⟩ 9 (some 200) false rfl,
   C8_loved_starred_monotonic.2.1 (some ⟨5, some 100, false⟩) 9 (some 200),
   C8_loved_starred_monotonic.1 false _ _ _ rfl⟩

/-! ## Theorems: fuzzy matcher result set (C9) -/

/-- Filtering after mapping is the same as the guarded `filterMap` used in
the candidate loop. -/
theorem filterMap_guard_eq_filter_map {α β : Type} (g : α → β) (p : β → Bool)
    (l : List α) :
    (l.filterMap fun e => if p (g e) then some (g e) else none)
      = (l.map g).filter p := by
  induction l with
  | nil => rfl
  | cons a l ih =>
    by_cases h : p (g a)
    · simp [List.filterMap_cons, List.filter_cons, h, ih]
    · simp [List.filterMap_cons, List.filter_cons, h, ih]

theorem dyadicLe_total (x y : Dyadic) : dyadicLe x y ∨ dyadicLe y x :=
  Nat.le_total (x.num * 2 ^ y.exp) (y.num * 2 ^ x.exp)

theorem dyadicLe_trans {x y z : Dyadic} (h1 : dyadicLe x y) (h2 : dyadicLe y z) :
    dyadicLe x z := by
  unfold dyadicLe at h1 h2 ⊢
  have hp : 0 < 2 ^ y.exp := Nat.pos_pow_of_pos _ (by decide)
  have h1' := Nat.mul_le_mul_right (2 ^ z.exp) h1
  have h2' := Nat.mul_le_mul_right (2 ^ x.exp) h2
  have hc : x.num * 2 ^ z.exp * 2 ^ y.exp ≤ z.num * 2 ^ x.exp * 2 ^ y.exp := by
    calc x.num * 2 ^ z.exp * 2 ^ y.exp
        = x.num * 2 ^ y.exp * 2 ^ z.exp := by ring
      _ ≤ y.num * 2 ^ x.exp * 2 ^ z.exp := h1'
      _ = y.num * 2 ^ z.exp * 2 ^ x.exp := by ring
      _ ≤ z.num * 2 ^ y.exp * 2 ^ x.exp := h2'
      _ = z.num * 2 ^ x.exp * 2 ^ y.exp := by ring
  exact Nat.le_of_mul_le_mul_right hc hp

/-- C9 counterexample: with real arithmetic the combined score of a
candidate scoring 92/92 at threshold 92 is exactly 92, so the claim says
the candidate is returned; the code's binary64 evaluation of
`92*0.7 + 92*0.3` gives `91.99999999999999 < 92` and excludes it: the
matcher returns the empty list. -/
theorem C9_counterexample :
    (92 * 10 ≤ 92 * 7 + 92 * 3 ∧ 70 ≤ 92)
    ∧ find_fuzzy_matches_for_navidrome_track (fun _ _ => 92) id "B" "Y"
        [(["a", "x"], ⟨[5], false, "A", "X", ""⟩)] 92 = [] := by
  decide

/-- C9 amended: the fuzzy matcher returns exactly (as a multiset) the
candidates whose binary64 combined score — Python's IEEE-double evaluation
of `track*0.7 + artist*0.3`, which at exact ties can fall marginally below
the real value — is at least the threshold and whose artist score is at
least 70, sorted by descending combined score. -/
theorem C9_fuzzy_filter_and_sort (ratioFn : String → String → Nat)
    (nfdStrip : String → String) (navidrome_artist navidrome_track : String)
    (agg : AggMap) (threshold : Nat) :
    (find_fuzzy_matches_for_navidrome_track ratioFn nfdStrip navidrome_artist
        navidrome_track agg threshold).Perm
      ((agg.map fun e =>
          fuzzyCandidate ratioFn nfdStrip
            (normalize_for_fuzzy_match nfdStrip navidrome_artist)
            (normalize_for_fuzzy_match nfdStrip navidrome_track) e.2).filter
        (passesGates threshold))
    ∧ (find_fuzzy_matches_for_navidrome_track ratioFn nfdStrip navidrome_artist
        navidrome_track agg threshold).Pairwise
        fun x y => dyadicLe y.combined_score x.combined_score := by
  constructor
  · unfold find_fuzzy_matches_for_navidrome_track
    refine (List.perm_insertionSort _ _).trans ?_
    rw [filterMap_guard_eq_filter_map
      (fun e => fuzzyCandidate ratioFn nfdStrip _ _ e.2) (passesGates threshold) agg]
  · unfold find_fuzzy_matches_for_navidrome_track
    haveI : IsTotal FuzzyMatch (fun x y => dyadicLe y.combined_score x.combined_score) :=
      ⟨fun a b => dyadicLe_total b.combined_score a.combined_score⟩
    haveI : IsTrans FuzzyMatch (fun x y => dyadicLe y.combined_score x.combined_score) :=
      ⟨fun _ _ _ hab hbc => dyadicLe_trans hbc hab⟩
    exact List.sorted_insertionSort _ _

/-! ## Theorems: album-aware mode never reaches fuzzy matching (C10) -/

/-- C10: with `album_aware = True`, once the cached-match lookup and the
exact/fallback key lookups all miss, the resolver returns `None` without
prompting and without touching the cache — for every fuzzy-enable flag,
every similarity function and every user behaviour: fuzzy matching is
unreachable in album-aware mode. -/
theorem C10_album_aware_no_fuzzy (ratioFn : String → String → Nat)
    (nfdStrip : String → String) (choose : List FuzzyMatch → Option FuzzyMatch)
    (cfg : Config) (nav : NavTrack) (agg : AggMap) (cache : CacheState)
    (fuzzy_threshold : Nat) (enable_fuzzy : Bool)
    (album_specific_keys : Option (List (String × String)))
    (hc : ∀ a t, get_fuzzy_match_for_navidrome_track cache nav.id = some (a, t) →
      lookupAgg agg (make_key_lastfm a t none false) = none)
    (he : lookupAgg agg (make_key_navidrome cfg nav.artist nav.title nav.album true) = none)
    (hemp : lookupAgg agg (make_key_navidrome cfg nav.artist nav.title (some "") true) = none)
    (hagn : lookupAgg agg (make_key_navidrome cfg nav.artist nav.title none false) = none) :
    get_lastfm_match_for_navidrome_track ratioFn nfdStrip choose cfg nav agg cache
      fuzzy_threshold enable_fuzzy true album_specific_keys
      = ⟨none, false, cache⟩ := by
  unfold get_lastfm_match_for_navidrome_track
  rcases hf : get_fuzzy_match_for_navidrome_track cache nav.id with _ | ⟨a, t⟩
  · simp [hf, he, hemp, hagn]
  · simp [hf, hc a t hf, he, hemp, hagn]

/-- C10 witness: a concrete album-aware call with all lookups missing, with
fuzzy enabled and a user that would always accept. -/
theorem C10_album_aware_no_fuzzy_witness :
    get_lastfm_match_for_navidrome_track (fun _ _ => 100) id (fun l => l.head?)
      ⟨true, []⟩ ⟨"t1", "Artist", "Song", some "Album"⟩
      [(["other", "thing", "album"], ⟨[7], false, "Other", "Thing", "Album"⟩)]
      ⟨[], []⟩ 85 true true none
      = ⟨none, false, ⟨[], []⟩⟩ :=
  C10_album_aware_no_fuzzy (fun _ _ => 100) id (fun l => l.head?)
    ⟨true, []⟩ ⟨"t1", "Artist", "Song", some "Album"⟩ _ _ 85 true none
    (by intro a t h; simp [get_fuzzy_match_for_navidrome_track] at h)
    (by decide) (by decide) (by decide)

/-! ## Theorems: lookup order in the match resolver (C4) -/

/-- C4 counterexample: the claim that the exact-match lookup comes first is
false — a concrete call where the target-side normalized key is present
verbatim in the aggregated map, yet the resolver returns the (different)
identity remembered by the decision cache, because the cached-match lookup
runs before the exact lookup. -/
theorem C4_counterexample :
    lookupAgg
        [(["artist", "song"], ⟨[1], false, "Artist", "Song", ""⟩),
         (["other", "thing"], ⟨[2], false, "Other", "Thing", ""⟩)]
        (make_key_navidrome ⟨true, []⟩ "Artist" "Song" none false)
      = some ⟨[1], false, "Artist", "Song", ""⟩
    ∧ get_lastfm_match_for_navidrome_track (fun _ _ => 0) id (fun _ => none)
        ⟨true, []⟩ ⟨"t1", "Artist", "Song", none⟩
        [(["artist", "song"], ⟨[1], false, "Artist", "Song", ""⟩),
         (["other", "thing"], ⟨[2], false, "Other", "Thing", ""⟩)]
        ⟨[("t1", ("Other", "Thing"))], []⟩ 85 true false none
      = ⟨some ⟨[2], false, "Other", "Thing", ""⟩, false,
         ⟨[("t1", ("Other", "Thing"))], []⟩⟩
    ∧ (⟨[2], false, "Other", "Thing", ""⟩ : AggInfo)
        ≠ ⟨[1], false, "Artist", "Song", ""⟩ := by
  decide

/-- C4 amended: the memoized-decision (cached fuzzy-match) lookup precedes
the exact lookup.  The resolver returns the cached identity whenever it is
still present in the aggregated map; the exact target-side key is consulted
only when the cached lookup misses or is stale, and fuzzy matching comes
only after both. -/
theorem C4_cache_lookup_precedes_exact (ratioFn : String → String → Nat)
    (nfdStrip : String → String) (choose : List FuzzyMatch → Option FuzzyMatch)
    (cfg : Config) (nav : NavTrack) (agg : AggMap) (cache : CacheState)
    (fuzzy_threshold : Nat) (enable_fuzzy album_aware : Bool)
    (album_specific_keys : Option (List (String × String))) :
    (∀ a t si, get_fuzzy_match_for_navidrome_track cache nav.id = some (a, t) →
      lookupAgg agg (make_key_lastfm a t none false) = some si →
      get_lastfm_match_for_navidrome_track ratioFn nfdStrip choose cfg nav agg cache
        fuzzy_threshold enable_fuzzy album_aware album_specific_keys
        = ⟨some si, false, cache⟩)
    ∧ ((∀ a t, get_fuzzy_match_for_navidrome_track cache nav.id = some (a, t) →
        lookupAgg agg (make_key_lastfm a t none false) = none) →
      ∀ si, lookupAgg agg
          (make_key_navidrome cfg nav.artist nav.title nav.album album_aware) = some si →
      get_lastfm_match_for_navidrome_track ratioFn nfdStrip choose cfg nav agg cache
        fuzzy_threshold enable_fuzzy album_aware album_specific_keys
        = ⟨some si, false, cache⟩) := by
  constructor
  · intro a t si hcache hkey
    unfold get_lastfm_match_for_navidrome_track
    simp [hcache, hkey]
  · intro hmiss si hexact
    unfold get_lastfm_match_for_navidrome_track
    rcases hf : get_fuzzy_match_for_navidrome_track cache nav.id with _ | ⟨a, t⟩
    · simp [hf, hexact]
    · simp [hf, hmiss a t hf, hexact]

/-- C4 amended witness: the counterexample's concrete data, where the cached
identity wins, and a stale-cache concrete instance where the exact key
wins. -/
theorem C4_cache_lookup_precedes_exact_witness :
    get_lastfm_match_for_navidrome_track (fun _ _ => 0) id (fun _ => none)
        ⟨true, []⟩ ⟨"t1", "Artist", "Song", none⟩
        [(["artist", "song"], ⟨[1], false, "Artist", "Song", ""⟩),
         (["other", "thing"], ⟨[2], false, "Other", "Thing", ""⟩)]
        ⟨[("t1", ("Other", "Thing"))], []⟩ 85 true false none
      = ⟨some ⟨[2], false, "Other", "Thing", ""⟩, false,
         ⟨[("t1", ("Other", "Thing"))], []⟩⟩
    ∧ get_lastfm_match_for_navidrome_track (fun _ _ => 0) id (fun _ => none)
        ⟨true, []⟩ ⟨"t1", "Artist", "Song", none⟩
        [(["artist", "song"], ⟨[1], false, "Artist", "Song", ""⟩)]
        ⟨[("t1", ("Gone", "Gone"))], []⟩ 85 true false none
      = ⟨some ⟨[1], false, "Artist", "Song", ""⟩, false,
         ⟨[("t1", ("Gone", "Gone"))], []⟩⟩ :=
  ⟨(C4_cache_lookup_precedes_exact (fun _ _ => 0) id (fun _ => none)
      ⟨true, []⟩ ⟨"t1", "Artist", "Song", none⟩ _ _ 85 true false none).1
    "Other" "Thing" ⟨[2], false, "Other", "Thing", ""⟩ (by decide) (by decide),
   (C4_cache_lookup_precedes_exact (fun _ _ => 0) id (fun _ => none)
      ⟨true, []⟩ ⟨"t1", "Artist", "Song", none⟩ _ _ 85 true false none).2
    (by intro a t h
        simp [get_fuzzy_match_for_navidrome_track] at h
        rw [← h.1, ← h.2]
        decide)
    ⟨[1], false, "Artist", "Song", ""⟩ (by decide)⟩

/-! ## Theorems: skip-record re-prompt condition (C5) -/

/-- C5 counterexample: the claim that a re-prompt happens only when the
current candidate set is a strict superset of the rejected set is false —
a concrete skipped track whose current candidate set `{("A","X")}` is not a
superset of the rejected set `{("B0","Y0")}` (so the claim demands it stay
skipped), yet the resolver prompts, because the code re-prompts whenever
the set difference `current - previous` is nonempty. -/
theorem C5_counterexample :
    ¬ (∀ k ∈ [("B0", "Y0")],
        k ∈ (find_fuzzy_matches_for_navidrome_track (fun _ _ => 100) id "B" "Y"
            [(["a", "x"], ⟨[5], false, "A", "X", ""⟩)] 85).map
          fun m => (m.lastfm_artist, m.lastfm_track))
    ∧ (get_lastfm_match_for_navidrome_track (fun _ _ => 100) id (fun _ => none)
        ⟨true, []⟩ ⟨"t1", "B", "Y", none⟩
        [(["a", "x"], ⟨[5], false, "A", "X", ""⟩)]
        ⟨[], [("t1", [("B0", "Y0")])]⟩ 85 true false none).prompted = true := by
  decide

/-- C5 amended: for a target item holding a SkipRecord, once the resolver
reaches the fuzzy stage it re-prompts exactly when some current
fuzzy-candidate identity is outside the previously rejected set (the set
difference is nonempty); when every current candidate was already rejected,
the item stays skipped with no prompt and an unchanged cache. -/
theorem C5_skip_reprompt_iff_new_candidate (ratioFn : String → String → Nat)
    (nfdStrip : String → String) (choose : List FuzzyMatch → Option FuzzyMatch)
    (cfg : Config) (nav : NavTrack) (agg : AggMap) (cache : CacheState)
    (fuzzy_threshold : Nat) (prev : List (String × String))
    (hc : get_fuzzy_match_for_navidrome_track cache nav.id = none)
    (he : lookupAgg agg
      (make_key_navidrome cfg nav.artist nav.title nav.album false) = none)
    (hsk : get_skipped_track_info cache nav.id = some prev) :
    ((∀ k ∈ (find_fuzzy_matches_for_navidrome_track ratioFn nfdStrip nav.artist
          nav.title agg fuzzy_threshold).map
            (fun m => (m.lastfm_artist, m.lastfm_track)), k ∈ prev) →
      get_lastfm_match_for_navidrome_track ratioFn nfdStrip choose cfg nav agg cache
        fuzzy_threshold true false none = ⟨none, false, cache⟩)
    ∧ ((∃ k ∈ (find_fuzzy_matches_for_navidrome_track ratioFn nfdStrip nav.artist
          nav.title agg fuzzy_threshold).map
            (fun m => (m.lastfm_artist, m.lastfm_track)), k ∉ prev) →
      (get_lastfm_match_for_navidrome_track ratioFn nfdStrip choose cfg nav agg cache
        fuzzy_threshold true false none).prompted = true) := by
  constructor
  · intro hsub
    by_cases hfm : find_fuzzy_matches_for_navidrome_track ratioFn nfdStrip nav.artist
        nav.title agg fuzzy_threshold = []
    · unfold get_lastfm_match_for_navidrome_track
      simp [hc, he, hfm]
    · have hb : (((find_fuzzy_matches_for_navidrome_track ratioFn nfdStrip nav.artist
            nav.title agg fuzzy_threshold).map
              (fun m => (m.lastfm_artist, m.lastfm_track))).any
            (fun k => !prev.contains k)) = false := by
        rw [List.any_eq_false]
        intro k hk
        simp only [Bool.not_eq_true]
        rw [show prev.contains k = true from List.elem_eq_true_of_mem (hsub k hk)]
        rfl
      unfold get_lastfm_match_for_navidrome_track
      simp [hc, he, hfm, hsk, hb]
      intro x hx hmem
      exact absurd (hsub _ (List.mem_map_of_mem _ hx)) hmem
  · rintro ⟨k, hk, hknot⟩
    have hfm : find_fuzzy_matches_for_navidrome_track ratioFn nfdStrip nav.artist
        nav.title agg fuzzy_threshold ≠ [] := by
      intro hnil
      rw [hnil] at hk
      cases hk
    have hb : (((find_fuzzy_matches_for_navidrome_track ratioFn nfdStrip nav.artist
          nav.title agg fuzzy_threshold).map
            (fun m => (m.lastfm_artist, m.lastfm_track))).any
          (fun k => !prev.contains k)) = true := by
      rw [List.any_eq_true]
      refine ⟨k, hk, ?_⟩
      have : prev.contains k = false :=
        Bool.eq_false_iff.mpr fun h => hknot (List.mem_of_elem_eq_true h)
      rw [this]
      rfl
    have hnall : ¬ ∀ x ∈ find_fuzzy_matches_for_navidrome_track ratioFn nfdStrip
        nav.artist nav.title agg fuzzy_threshold,
        (x.lastfm_artist, x.lastfm_track) ∈ prev := by
      intro hall
      obtain ⟨m, hm, hmk⟩ := List.mem_map.mp hk
      exact hknot (hmk ▸ hall m hm)
    unfold get_lastfm_match_for_navidrome_track
    rcases hch : choose (find_fuzzy_matches_for_navidrome_track ratioFn nfdStrip
        nav.artist nav.title agg fuzzy_threshold) with _ | sel
    · simp [hc, he, hfm, hsk, hb, hch]
      rw [if_neg hnall]
    · simp [hc, he, hfm, hsk, hb, hch]
      rw [if_neg hnall]

/-- C5 amended witness: the counterexample's concrete data exercises the
re-prompt direction; the same skipped track with its own candidate already
rejected exercises the stay-skipped direction. -/
theorem C5_skip_reprompt_iff_new_candidate_witness :
    (get_lastfm_match_for_navidrome_track (fun _ _ => 100) id (fun _ => none)
        ⟨true, []⟩ ⟨"t1", "B", "Y", none⟩
        [(["a", "x"], ⟨[5], false, "A", "X", ""⟩)]
        ⟨[], [("t1", [("B0", "Y0")])]⟩ 85 true false none).prompted = true
    ∧ get_lastfm_match_for_navidrome_track (fun _ _ => 100) id (fun _ => none)
        ⟨true, []⟩ ⟨"t1", "B", "Y", none⟩
        [(["a", "x"], ⟨[5], false, "A", "X", ""⟩)]
        ⟨[], [("t1", [("A", "X")])]⟩ 85 true false none
      = ⟨none, false, ⟨[], [("t1", [("A", "X")])]⟩⟩ :=
  ⟨(C5_skip_reprompt_iff_new_candidate (fun _ _ => 100) id (fun _ => none)
      ⟨true, []⟩ ⟨"t1", "B", "Y", none⟩ _ _ 85 [("B0", "Y0")]
      (by decide) (by decide) (by decide)).2
    (by decide),
   (C5_skip_reprompt_iff_new_candidate (fun _ _ => 100) id (fun _ => none)
      ⟨true, []⟩ ⟨"t1", "B", "Y", none⟩ _ _ 85 [("A", "X")]
      (by decide) (by decide) (by decide)).1
    (by decide)⟩

/-! ## String lemmas for the key asymmetry (towards C6) -/

theorem dropWhile_idem {α : Type} (p : α → Bool) (l : List α) :
    (l.dropWhile p).dropWhile p = l.dropWhile p := by
  induction l with
  | nil => rfl
  | cons c cs ih =>
    by_cases h : p c
    · simp [List.dropWhile_cons, h, ih]
    · simp [List.dropWhile_cons, h]

theorem dropTrail_isPrefixOf (x : List Char) : dropTrail x <+: x := by
  unfold dropTrail
  have h := List.dropWhile_suffix (l := x.reverse) isWs
  have := List.reverse_prefix.mpr h
  simpa using this

theorem dropTrail_idem (x : List Char) : dropTrail (dropTrail x) = dropTrail x := by
  unfold dropTrail
  rw [List.reverse_reverse, dropWhile_idem]

theorem dropLead_idem (x : List Char) : dropLead (dropLead x) = dropLead x := by
  unfold dropLead
  rw [dropWhile_idem]

theorem dropLead_dropTrail (x : List Char) (h : dropLead x = x) :
    dropLead (dropTrail x) = dropTrail x := by
  rcases hx : dropTrail x with _ | ⟨c, cs⟩
  · rfl
  · obtain ⟨t, ht⟩ := dropTrail_isPrefixOf x
    rw [hx] at ht
    have hcx : x = c :: (cs ++ t) := by
      rw [← ht]; rfl
    have hnc : isWs c = false := by
      by_contra hc
      rw [Bool.not_eq_false] at hc
      have : dropLead x = dropLead (cs ++ t) := by
        rw [hcx]
        unfold dropLead
        rw [List.dropWhile_cons_of_pos hc]
      have hlen : (dropLead (cs ++ t)).length ≤ (cs ++ t).length :=
        (List.dropWhile_suffix isWs).length_le
      rw [h, hcx] at this
      have : (c :: (cs ++ t)).length ≤ (cs ++ t).length := this ▸ hlen
      simp at this
    unfold dropLead
    rw [List.dropWhile_cons]
    simp [hnc]

theorem trimList_idem (l : List Char) : trimList (trimList l) = trimList l := by
  unfold trimList
  rw [dropLead_dropTrail (dropLead l) (dropLead_idem l), dropTrail_idem]

theorem splitFirst_eq_self (l : List Char) (h : hasSepMatch l = false) :
    splitFirst l = l := by
  induction l with
  | nil => rfl
  | cons c rest ih =>
    rw [hasSepMatch] at h
    rw [Bool.or_eq_false_iff] at h
    rw [splitFirst, if_neg (by rw [h.1]; exact Bool.false_ne_true), ih h.2]

theorem splitFirst_length_lt (l : List Char) (h : hasSepMatch l = true) :
    (splitFirst l).length < l.length := by
  induction l with
  | nil => cases h
  | cons c rest ih =>
    rw [splitFirst]
    by_cases hm : sepMatchAt (c :: rest) = true
    · rw [if_pos hm]
      simp
    · rw [if_neg hm]
      rw [hasSepMatch, Bool.or_eq_true_iff] at h
      rcases h with h | h
      · exact absurd h hm
      · simpa using ih h

theorem trimList_length_le (l : List Char) : (trimList l).length ≤ l.length := by
  unfold trimList
  calc (dropTrail (dropLead l)).length
      ≤ (dropLead l).length := (dropTrail_isPrefixOf _).length_le
    _ ≤ l.length := (List.dropWhile_suffix isWs).length_le

/-- With the first-artist-only flag enabled and the default (empty)
whitelist, collaborator-splitting changes the normalized artist component
exactly on the artists in which the separator pattern matches. -/
theorem normalize_first_artist_eq_iff (artist : String) :
    normalize (first_artist ⟨true, []⟩ artist) = normalize artist
      ↔ containsSep artist = false := by
  by_cases ha : artist = ""
  · subst ha
    constructor
    · intro _
      rfl
    · intro _
      rfl
  · have hL : (trimStr artist).data = trimList artist.data := rfl
    rw [show first_artist ⟨true, []⟩ artist
        = String.mk (trimList (splitFirst (trimList artist.data))) by
      unfold first_artist
      rw [if_neg ha]
      rfl]
    by_cases hsep : containsSep artist = true
    · apply iff_of_false
      swap
      · rw [hsep]; simp
      unfold containsSep at hsep
      intro heq
      have hlt : (splitFirst (trimList artist.data)).length
          < (trimList artist.data).length := splitFirst_length_lt _ hsep
      have hlen1 : (normalize (String.mk (trimList (splitFirst (trimList artist.data))))).data.length
          < (trimList artist.data).length := by
        unfold normalize
        by_cases hz : String.mk (trimList (splitFirst (trimList artist.data))) = ""
        · rw [if_pos hz]
          have : (trimList artist.data).length ≠ 0 := by
            intro h0
            rw [List.length_eq_zero.mp h0] at hsep
            cases hsep
          simpa using Nat.pos_of_ne_zero this
        · rw [if_neg hz]
          unfold lowerStr trimStr
          simp only [List.length_map]
          calc (trimList (String.mk (trimList (splitFirst (trimList artist.data)))).data).length
              = (trimList (trimList (splitFirst (trimList artist.data)))).length := rfl
            _ = (trimList (splitFirst (trimList artist.data))).length := by rw [trimList_idem]
            _ ≤ (splitFirst (trimList artist.data)).length := trimList_length_le _
            _ < (trimList artist.data).length := hlt
      have hlen2 : (normalize artist).data.length = (trimList artist.data).length := by
        unfold normalize
        rw [if_neg ha]
        unfold lowerStr trimStr
        simp
      rw [heq, hlen2] at hlen1
      exact lt_irrefl _ hlen1
    · rw [Bool.not_eq_true] at hsep
      apply iff_of_true
      swap
      · exact hsep
      unfold containsSep at hsep
      rw [splitFirst_eq_self _ hsep, trimList_idem]
      by_cases hz : (trimList artist.data) = []
      · have hmk : String.mk (trimList artist.data) = "" := by
          rw [hz]
        rw [hmk]
        have hR : normalize artist = "" := by
          unfold normalize lowerStr trimStr
          rw [if_neg ha]
          show String.mk ((trimList artist.data).map Char.toLower) = ""
          rw [hz]
          rfl
        rw [hR]
        rfl
      · unfold normalize
        rw [if_neg ha, if_neg (by
          intro hmk
          exact hz (congrArg String.data hmk))]
        unfold lowerStr trimStr
        show String.mk ((trimList (trimList artist.data)).map Char.toLower)
          = String.mk ((trimList artist.data).map Char.toLower)
        rw [trimList_idem]

/-! ## Theorems: key asymmetry (C6) -/

/-- C6: the source-side key never collaborator-splits its artist, the
target-side key is built from `first_artist` of its artist (so it splits
whenever the flag is enabled), and — under the enabled flag with the default
empty whitelist — the two key functions differ exactly on the artists in
which the collaboration-separator pattern matches. -/
theorem C6_key_asymmetry :
    (∀ (artist title : String) (album : Option String) (album_aware : Bool),
        keyFst (make_key_lastfm artist title album album_aware) = normalize artist)
    ∧ (∀ (cfg : Config) (artist title : String) (album : Option String)
        (album_aware : Bool), cfg.firstArtistOnly = true →
        keyFst (make_key_navidrome cfg artist title album album_aware)
          = normalize (first_artist cfg artist))
    ∧ (∀ (artist title : String) (album : Option String) (album_aware : Bool),
        make_key_navidrome ⟨true, []⟩ artist title album album_aware
            ≠ make_key_lastfm artist title album album_aware
          ↔ containsSep artist = true) := by
  refine ⟨?_, ?_, ?_⟩
  · intro artist title album aa
    cases aa <;> rfl
  · intro cfg artist title album aa _
    cases aa <;> rfl
  · intro artist title album aa
    have hiff := normalize_first_artist_eq_iff artist
    constructor
    · intro hne
      by_contra hsep
      rw [Bool.not_eq_true] at hsep
      apply hne
      cases aa <;>
        simp only [make_key_navidrome, make_key_lastfm, if_true, if_false,
          Bool.false_eq_true, hiff.mpr hsep]
    · intro hsep heq
      have : normalize (first_artist ⟨true, []⟩ artist) = normalize artist := by
        cases aa <;> simp [make_key_navidrome, make_key_lastfm] at heq <;>
          exact heq
      rw [hiff] at this
      rw [this] at hsep
      cases hsep

/-- C6 witness: a collaboration artist splits on the target side (flag
enabled) and the two keys differ there. -/
theorem C6_key_asymmetry_witness :
    keyFst (make_key_navidrome ⟨true, []⟩ "A feat. B" "Song" none false)
      = normalize (first_artist ⟨true, []⟩ "A feat. B")
    ∧ (make_key_navidrome ⟨true, []⟩ "A feat. B" "Song" none false
        ≠ make_key_lastfm "A feat. B" "Song" none false) :=
  ⟨C6_key_asymmetry.2.1 ⟨true, []⟩ "A feat. B" "Song" none false rfl,
   (C6_key_asymmetry.2.2 "A feat. B" "Song" none false).mpr (by decide)⟩

/-! ## Theorems: duplicate-selection persistence and replay (C3) -/

theorem find?_map_replace {α β : Type} [DecidableEq α] (l : List (α × β)) (k : α)
    (v : β) (h : (l.find? fun e => e.1 = k).isSome) :
    ((l.map fun e => if e.1 = k then (k, v) else e).find? fun e => e.1 = k)
      = some (k, v) := by
  induction l with
  | nil => simp [List.find?] at h
  | cons e es ih =>
    by_cases he : e.1 = k
    · simp [List.find?_cons, he]
    · have hd : (decide (e.1 = k)) = false := decide_eq_false he
      rw [List.find?_cons] at h
      simp only [hd] at h
      simp only [List.map_cons, if_neg he, List.find?_cons, hd]
      exact ih h

theorem find?_append_new {α β : Type} [DecidableEq α] (l : List (α × β)) (k : α)
    (v : β) (h : (l.find? fun e => e.1 = k) = none) :
    ((l ++ [(k, v)]).find? fun e => e.1 = k) = some (k, v) := by
  induction l with
  | nil => simp [List.find?]
  | cons e es ih =>
    rw [List.find?_cons] at h
    by_cases he : e.1 = k
    · simp [decide_eq_true he] at h
    · have hd : (decide (e.1 = k)) = false := decide_eq_false he
      simp only [hd] at h
      rw [List.cons_append, List.find?_cons]
      simp only [hd]
      exact ih h

theorem find?_upsertAssoc {α β : Type} [DecidableEq α] (l : List (α × β)) (k : α)
    (v : β) :
    ((upsertAssoc l k v).find? fun e => e.1 = k) = some (k, v) := by
  unfold upsertAssoc
  by_cases h : (l.find? fun e => e.1 = k).isSome
  · rw [if_pos h]
    exact find?_map_replace l k v h
  · rw [if_neg h]
    rw [Option.not_isSome_iff_eq_none] at h
    exact find?_append_new l k v h

/-- Saving a DuplicateSelection makes it retrievable under its source
identity key. -/
theorem get_save_duplicate_selection (store : DupStore) (a t : String)
    (ids : List String) :
    get_duplicate_selection (save_duplicate_selection store a t ids) a t
      = some ids := by
  unfold get_duplicate_selection save_duplicate_selection
  rw [find?_upsertAssoc store.entries (a, t) ids]
  rfl

/-- C3: interactive duplicate-group selections are persisted keyed by the
source identity — a fresh interactive selection is stored under
`(lastfm_artist, lastfm_track)` — and on a later run whose store holds such
a record, the selection is replayed with no prompt whenever every
previously selected target id is still present in the duplicate group. -/
theorem C3_duplicate_selection_replay (store : DupStore)
    (lastfm_artist lastfm_track : String) (duplicates : List DupTrack)
    (info : AggInfo) :
    (∀ ids, ids ≠ [] →
      get_duplicate_selection store lastfm_artist lastfm_track = none →
      get_duplicate_selection
        (handle_duplicate_prompt store lastfm_artist lastfm_track duplicates info
          (.select ids)).store lastfm_artist lastfm_track = some ids)
    ∧ (∀ sel, get_duplicate_selection store lastfm_artist lastfm_track = some sel →
      sel ≠ [] → (∀ tid ∈ sel, tid ∈ duplicates.map DupTrack.id) →
      ∀ prompt,
        (handle_duplicate_prompt store lastfm_artist lastfm_track duplicates info
          prompt).prompted = false
        ∧ (handle_duplicate_prompt store lastfm_artist lastfm_track duplicates info
            prompt).selected = some sel) := by
  constructor
  · intro ids hne hnone
    unfold handle_duplicate_prompt
    rw [hnone]
    dsimp only
    rw [if_pos hne]
    exact get_save_duplicate_selection store lastfm_artist lastfm_track ids
  · intro sel hget hne hvalid prompt
    have hfilter : (sel.filter fun tid => (duplicates.map DupTrack.id).contains tid)
        = sel := by
      rw [List.filter_eq_self]
      intro tid htid
      exact List.elem_eq_true_of_mem (hvalid tid htid)
    unfold handle_duplicate_prompt
    rw [hget]
    dsimp only
    simp only [if_neg hne, hfilter]
    rw [if_pos hne]
    constructor <;> rfl

/-- C3 witness: a store holding `("A","X") ↦ ["id1"]` replays `["id1"]`
without prompting while both group members are present, and a fresh
selection on an empty store is persisted under the source identity. -/
theorem C3_duplicate_selection_replay_witness :
    ((handle_duplicate_prompt ⟨[(("A", "X"), ["id1"])]⟩ "A" "X"
        [⟨"id1", none⟩, ⟨"id2", some "B"⟩] ⟨[4], false, "A", "X", ""⟩
        .skip).prompted = false
      ∧ (handle_duplicate_prompt ⟨[(("A", "X"), ["id1"])]⟩ "A" "X"
          [⟨"id1", none⟩, ⟨"id2", some "B"⟩] ⟨[4], false, "A", "X", ""⟩
          .skip).selected = some ["id1"])
    ∧ get_duplicate_selection
        (handle_duplicate_prompt ⟨[]⟩ "A" "X"
          [⟨"id1", none⟩, ⟨"id2", some "B"⟩] ⟨[4], false, "A", "X", ""⟩
          (.select ["id2"])).store "A" "X" = some ["id2"] :=
  ⟨(C3_duplicate_selection_replay ⟨[(("A", "X"), ["id1"])]⟩ "A" "X"
      [⟨"id1", none⟩, ⟨"id2", some "B"⟩] ⟨[4], false, "A", "X", ""⟩).2
    ["id1"] (by decide) (by decide) (by decide) .skip,
   (C3_duplicate_selection_replay ⟨[]⟩ "A" "X"
      [⟨"id1", none⟩, ⟨"id2", some "B"⟩] ⟨[4], false, "A", "X", ""⟩).1
    ["id2"] (by decide) (by decide)⟩

end NaviSync
